import Mathlib

/-!
Verification of the ipa_server voice-resolution and request-handling pipeline.

The Rust source (src/main.rs, src/cors.rs) is shallowly embedded below:
* AWS `LanguageCode` values are embedded by their `as_str()` string form
  (e.g. `LanguageCode::EnUs` is "en-US"), since the program only ever
  consumes a code through `as_str()`.
* Rust `String::len` counts UTF-8 bytes; `rustLen` mirrors that.
* The `HashMap` tables are embedded as association lists (all keys are
  distinct, so `List.lookup` has the same semantics as `HashMap::get`).
* Panics (`unwrap`) are embedded as `Option.none` results.
* The random draw `slice::choose(&mut rng)` is embedded as `chooseR r`,
  taking the random source as a natural number `r`; it returns `none`
  exactly when the slice is empty, matching `choose`.
-/

namespace IpaServer

/-- `MAX_IPA_LENGTH` from src/main.rs line 23. -/
def MAX_IPA_LENGTH : Nat := 50

/-- `MIN_IPA_LENGTH` from src/main.rs line 24. -/
def MIN_IPA_LENGTH : Nat := 1

/-- `RATE_LIMIT_PER_HOUR` from src/main.rs line 25. -/
def RATE_LIMIT_PER_HOUR : Nat := 100

/-- Rust `String::len`: the number of UTF-8 bytes of the string. -/
def rustLen (s : String) : Nat :=
  s.data.foldl (fun n c => n + c.utf8Size) 0

/-- The `LANGUAGE_TO_CODE` table from src/main.rs lines 29-52, with each
AWS `LanguageCode` constant replaced by its `as_str()` form. -/
def LANGUAGE_TO_CODE : List (String × String) :=
  [ ("Arabic", "arb"),
    ("Catalan", "ca-ES"),
    ("Mandarin", "cmn-CN"),
    ("Welsh", "cy-GB"),
    ("Danish", "da-DK"),
    ("Standard German", "de-AT"),
    ("English", "en-US"),
    ("Spanish", "es-ES"),
    ("French", "fr-CA"),
    ("Hindi and Urdu", "hi-IN"),
    ("Icelandic", "is-IS"),
    ("Italian", "it-IT"),
    ("Japanese", "ja-JP"),
    ("Korean", "ko-KR"),
    ("Norwegian", "nb-NO"),
    ("Dutch", "nl-NL"),
    ("Polish", "pl-PL"),
    ("Portuguese", "pt-BR"),
    ("Romanian", "ro-RO"),
    ("Russian", "ru-RU"),
    ("Swedish", "sv-SE"),
    ("Turkish", "tr-TR") ]

/-- `generic_language_from_code` (src/main.rs lines 165-167):
`master_code.as_str().get(0..2).unwrap().to_string()`.
`str::get(0..2)` yields the first two characters when they exist
(all provider codes are ASCII, so bytes coincide with characters) and
`None` otherwise, in which case `unwrap` panics; the panic is embedded
as `none`. -/
def generic_language_from_code (master_code : String) : Option String :=
  if 2 ≤ master_code.data.length then
    some (String.mk (master_code.data.take 2))
  else
    none

/-- `OutputFormat` variants used by the program (aws_sdk_polly). -/
inductive OutputFormat where
  | oggVorbis
  | mp3
  | pcm
  deriving DecidableEq, Repr

/-- `TextType` variants used by the program (aws_sdk_polly). -/
inductive TextType where
  | ssml
  | text
  deriving DecidableEq, Repr

/-- The synthesis engine tiers of the provider (aws_sdk_polly `Engine`). -/
inductive Engine where
  | standard
  | neural
  | longForm
  | generative
  deriving DecidableEq, Repr

/-- The voice inventory: `HashMap<String, Vec<VoiceId>>` embedded as an
association list from generic language key to the ordered bucket of
speaker ids (bucket order is the push order; key set has no duplicates
by construction of `insertPush`). -/
abbrev Inv := List (String × List String)

/-- The request payload `RequestData` (src/main.rs lines 71-75). -/
structure RequestData where
  ipa : String
  language : String
  deriving DecidableEq, Repr

/-- The argument record that `Polly::synthesize_speech`
(src/main.rs lines 83-101) submits to the provider. -/
structure SynthRequest where
  outputFormat : OutputFormat
  text : String
  textType : TextType
  voiceId : String
  deriving DecidableEq, Repr

/-- The SSML wrapper built at src/main.rs line 88: a phoneme tag with
alphabet ipa and the raw IPA text as the ph attribute value, quoted with
the apostrophe character (written \x27 here). -/
def phonemeSsml (ipa : String) : String :=
  "<phoneme alphabet=\x27ipa\x27 ph=\x27" ++ ipa ++ "\x27></phoneme>"

/-- What the `speak` handler does with a request: either an HTTP 400
`status::BadRequest` with a message, or the submission of a synthesis
request to the external provider. -/
inductive SpeakOutcome where
  | badRequest (msg : String)
  | synthesize (req : SynthRequest)
  deriving DecidableEq, Repr

/-- The length-violation message built at src/main.rs line 116. -/
def lengthErrMsg : String :=
  "IPA must be between " ++ toString MIN_IPA_LENGTH ++ " and " ++
    toString MAX_IPA_LENGTH ++ " characters"

/-- Rust `slice::choose(&mut rng)`: `none` iff the slice is empty,
otherwise some element of the slice; the pseudorandom draw is embedded
by the index `r`. -/
def chooseR (r : Nat) (l : List α) : Option α :=
  l.get? (r % l.length)

/-- The `speak` route handler (src/main.rs lines 104-155), up to the point
where the external synthesis call is submitted.  `speakers` is the
inventory `polly.speakers`; `r` embeds the per-request random source.
The result is `none` when the handler would panic (the `unwrap` inside
`generic_language_from_code`). -/
def speak (speakers : Inv) (r : Nat) (data : RequestData) :
    Option SpeakOutcome :=
  let ipa_length := rustLen data.ipa
  if ipa_length < MIN_IPA_LENGTH ∨ MAX_IPA_LENGTH < ipa_length then
    some (.badRequest lengthErrMsg)
  else
    match List.lookup data.language LANGUAGE_TO_CODE with
    | none =>
        some (.badRequest ("Language " ++ data.language ++ " is unsupported"))
    | some language_code =>
        match generic_language_from_code language_code with
        | none => none
        | some generic_language =>
            match List.lookup generic_language speakers with
            | none =>
                some (.badRequest
                  ("No speakers available for language " ++ data.language))
            | some speakers_bucket =>
                match chooseR r speakers_bucket with
                | none => some (.badRequest "No available speakers")
                | some random_speaker =>
                    some (.synthesize
                      ⟨.oggVorbis, phonemeSsml data.ipa, .ssml,
                        random_speaker⟩)

/-- One voice record as returned by the provider catalog
(`describe_voices`): `supported_engines`, `language_code` and `id` are
optional in the SDK type; `additional_language_codes()` yields an empty
slice when absent.  Codes and the id are embedded by their string form. -/
structure Voice where
  supportedEngines : Option (List Engine)
  languageCode : Option String
  additionalLanguageCodes : List String
  id : Option String
  deriving DecidableEq, Repr

/-- `voice.clone().supported_engines.unwrap_or_default().contains(&Engine::Standard)`
(src/main.rs lines 190-194). -/
def hasStandard (v : Voice) : Bool :=
  (v.supportedEngines.getD []).contains Engine.standard

/-- `all_voices.entry(k).or_insert_with(Vec::new).push(vid)`
(src/main.rs lines 207-210): append `vid` to the bucket of `k`,
creating a singleton bucket when the key is absent. -/
def insertPush : Inv → String → String → Inv
  | [], k, vid => [(k, [vid])]
  | (k₀, b) :: rest, k, vid =>
      if k₀ = k then (k₀, b ++ [vid]) :: rest
      else (k₀, b) :: insertPush rest k vid

/-- The inner loop of inventory construction (src/main.rs lines 204-212):
for each language code of the voice, reduce it to its generic key (the
`unwrap` there panics — embedded as `none` — when the reduction fails)
and, when the voice has an id, push the id into the bucket of that
key. -/
def pushCodes (inv : Inv) (vid : Option String) :
    List String → Option Inv
  | [] => some inv
  | code :: rest =>
      match generic_language_from_code code with
      | none => none
      | some generic_language =>
          let inv₂ :=
            match vid with
            | some i => insertPush inv generic_language i
            | none => inv
          pushCodes inv₂ vid rest

/-- Processing of one catalog voice (src/main.rs lines 189-213): skip it
when it does not list the Standard engine; otherwise unwrap its primary
language code (panic — `none` — when absent), append it after the
additional codes, and push the voice id under every reduced key. -/
def procVoice (inv : Inv) (v : Voice) : Option Inv :=
  if hasStandard v then
    match v.languageCode with
    | none => none
    | some main_language =>
        pushCodes inv v.id (v.additionalLanguageCodes ++ [main_language])
  else some inv

/-- The startup loop of `main` over the whole catalog, threading the
`all_voices` map. -/
def buildInventoryAux : Inv → List Voice → Option Inv
  | inv, [] => some inv
  | inv, v :: rest =>
      match procVoice inv v with
      | none => none
      | some inv₂ => buildInventoryAux inv₂ rest

/-- The Voice Inventory built at startup (src/main.rs lines 181-213) from
the provider catalog `voices`. -/
def buildInventory (voices : List Voice) : Option Inv :=
  buildInventoryAux [] voices

/-- The bucket of key `k`, defaulting to the empty bucket. -/
def bucketD (inv : Inv) (k : String) : List String :=
  (List.lookup k inv).getD []

/-- The language codes a voice is registered under, in the order the
builder traverses them (additional codes first, then the primary code). -/
def codesOf (v : Voice) : List String :=
  v.additionalLanguageCodes ++
    (match v.languageCode with
     | some main_language => [main_language]
     | none => [])

/-- How many entries voice `v` contributes to the bucket of key `k` for
speaker id `i`: one per registered code reducing to `k`, when `v` is a
Standard-engine voice carrying id `i`; none otherwise. -/
def voiceContrib (v : Voice) (i k : String) : Nat :=
  if v.id = some i ∧ hasStandard v then
    (codesOf v).countP (fun c => generic_language_from_code c == some k)
  else 0

/-! ## The CORS fairing (src/cors.rs) -/

/-- Response headers, newest first; `setHeader` below replaces. -/
abbrev Headers := List (String × String)

/-- Rocket `Response::set_header`: replace every header of that name. -/
def setHeader (hs : Headers) (n v : String) : Headers :=
  (n, v) :: hs.filter (fun p => ¬ p.1 = n)

/-- Read a header value. -/
def getHeader (hs : Headers) (n : String) : Option String :=
  (hs.find? (fun p => p.1 = n)).map (fun p => p.2)

/-- `CORS::on_response` (src/cors.rs lines 16-33): set the allow-origin
header to `*`, override it with the Origin header of the request when that
origin starts with `chrome-extension://`, then set the allowed methods
and allowed headers.  `origin` is `request.headers().get_one("Origin")`. -/
def on_response (origin : Option String) (response : Headers) : Headers :=
  let response := setHeader response "Access-Control-Allow-Origin" "*"
  let response :=
    match origin with
    | some o =>
        if o.startsWith "chrome-extension://" then
          setHeader response "Access-Control-Allow-Origin" o
        else response
    | none => response
  let response :=
    setHeader response "Access-Control-Allow-Methods" "GET, POST, OPTIONS"
  setHeader response "Access-Control-Allow-Headers"
    "Content-Type, Charset, Accept"

/-! ## The rate limiter (src/main.rs lines 55-69)

`RateLimitGuard` configures `Quota::per_hour(100)` and is mounted as a
request guard on the `speak` route, so admission is decided before the
handler body runs.  The admission mechanics themselves live in the
external `rocket_governor` crate; they are modelled from the spec. -/

/-- Outcome of routing one request through the rate-limited route. -/
inductive RouteResult where
  | handled (out : Option SpeakOutcome)
  | rateLimited
  deriving DecidableEq, Repr

/-- Modelled from the spec: the admission decision of the rate limiter
(the `rocket_governor` crate, external to src/) for one client inside
one hourly window.  `c` is the number of requests already admitted in
the window; a request is admitted while the quota
`RATE_LIMIT_PER_HOUR` is not yet exhausted, and a rejected request is
answered with a throttling status immediately, without running the
`speak` handler. -/
def serveOne (inv : Inv) (c : Nat) (req : RequestData × Nat) :
    Nat × RouteResult :=
  if c < RATE_LIMIT_PER_HOUR then
    (c + 1, .handled (speak inv req.2 req.1))
  else
    (c, .rateLimited)

/-- Modelled from the spec: the requests of one client in a single hourly
window, served in order. -/
def serveClient (inv : Inv) : Nat → List (RequestData × Nat) →
    List RouteResult
  | _, [] => []
  | c, req :: rest =>
      let s := serveOne inv c req
      s.2 :: serveClient inv s.1 rest

/-- The number of requests that reached the `speak` handler. -/
def countHandled (rs : List RouteResult) : Nat :=
  rs.countP (fun r => match r with | .handled _ => true | _ => false)

/-- Well-formedness of an inventory: every bucket is non-empty. -/
def InvWF (inv : Inv) : Prop := ∀ p ∈ inv, p.2 ≠ ([] : List String)

/-! ## Lemmas and claim theorems -/

lemma lookup_mem {α : Type} {l : List (String × α)} {k : String} {b : α}
    (h : List.lookup k l = some b) : (k, b) ∈ l := by
  rcases List.lookup_eq_some_iff.mp h with ⟨l₁, l₂, rfl, -⟩
  simp

lemma lookup_cons_eq {α : Type} (k₀ k : String) (b : α)
    (rest : List (String × α)) :
    List.lookup k ((k₀, b) :: rest) =
      if k₀ = k then some b else List.lookup k rest := by
  rw [List.lookup_cons]
  by_cases h : k₀ = k
  · subst h; simp
  · have hb : (k == k₀) = false := by
      simp only [beq_eq_false_iff_ne]
      exact fun hc => h hc.symm
    rw [hb, if_neg h]

lemma lookup_insertPush (inv : Inv) (k' vid k : String) :
    List.lookup k (insertPush inv k' vid) =
      if k' = k then some (bucketD inv k' ++ [vid]) else List.lookup k inv := by
  induction inv with
  | nil =>
      by_cases h : k' = k <;>
        simp [insertPush, bucketD, lookup_cons_eq, h]
  | cons p rest ih =>
      obtain ⟨k₀, b⟩ := p
      by_cases h0 : k₀ = k'
      · subst h0
        by_cases h : k₀ = k <;>
          simp [insertPush, bucketD, lookup_cons_eq, h, ih]
      · by_cases h : k₀ = k
        · subst h
          have hne : ¬ k' = k₀ := fun hc => h0 hc.symm
          simp [insertPush, h0, bucketD, lookup_cons_eq, hne, ih]
        · simp [insertPush, h0, bucketD, lookup_cons_eq, h, ih]



lemma count_bucketD_insertPush (inv : Inv) (k' vid k i : String) :
    (bucketD (insertPush inv k' vid) k).count i =
      (bucketD inv k).count i + (if k' = k ∧ vid = i then 1 else 0) := by
  unfold bucketD
  rw [lookup_insertPush]
  by_cases h : k' = k
  · subst h
    by_cases hv : vid = i <;>
      simp [List.count_append, List.count_singleton, hv, bucketD]
  · simp [h]

lemma pushCodes_count {vid : Option String} {codes : List String}
    {inv inv' : Inv} (h : pushCodes inv vid codes = some inv') (k i : String) :
    (bucketD inv' k).count i =
      (bucketD inv k).count i +
        (if vid = some i then
          codes.countP (fun c => generic_language_from_code c == some k)
        else 0) := by
  induction codes generalizing inv with
  | nil =>
      simp only [pushCodes, Option.some.injEq] at h
      subst h
      simp
  | cons c rest ih =>
      rw [pushCodes] at h
      cases hg : generic_language_from_code c with
      | none => rw [hg] at h; cases h
      | some gl =>
          rw [hg] at h
          dsimp only at h
          cases vid with
          | none =>
              have hrec := ih h
              simpa using hrec
          | some j =>
              have hrec := ih h
              rw [hrec, count_bucketD_insertPush]
              rw [List.countP_cons]
              by_cases hj : j = i
              · subst hj
                by_cases hk : gl = k
                · subst hk
                  simp [hg]
                  omega
                · have hb : ¬ (some gl == some k) = true := by
                    simp [hk]
                  simp [hg, hk, hb]
              · have hs : ¬ ((some j : Option String) = some i) := by
                  intro hc; exact hj (Option.some.inj hc)
                simp [hs, hj]



lemma procVoice_count {inv inv' : Inv} {v : Voice}
    (h : procVoice inv v = some inv') (k i : String) :
    (bucketD inv' k).count i = (bucketD inv k).count i + voiceContrib v i k := by
  unfold procVoice at h
  by_cases hs : hasStandard v
  · rw [if_pos hs] at h
    cases hm : v.languageCode with
    | none => rw [hm] at h; cases h
    | some m =>
        rw [hm] at h
        rw [pushCodes_count h k i]
        unfold voiceContrib codesOf
        rw [hm]
        by_cases hid : v.id = some i
        · simp [hid, hs]
        · simp [hid]
  · rw [if_neg hs] at h
    cases h
    unfold voiceContrib
    simp [hs]

lemma buildInventoryAux_count {voices : List Voice} {inv inv' : Inv}
    (h : buildInventoryAux inv voices = some inv') (k i : String) :
    (bucketD inv' k).count i =
      (bucketD inv k).count i +
        (voices.map (fun v => voiceContrib v i k)).sum := by
  induction voices generalizing inv with
  | nil =>
      simp only [buildInventoryAux, Option.some.injEq] at h
      subst h
      simp
  | cons v rest ih =>
      rw [buildInventoryAux] at h
      cases hp : procVoice inv v with
      | none => rw [hp] at h; cases h
      | some inv2 =>
          rw [hp] at h
          rw [ih h, procVoice_count hp]
          simp [Nat.add_assoc]

lemma buildInventory_count {voices : List Voice} {inv : Inv}
    (h : buildInventory voices = some inv) (k i : String) :
    (bucketD inv k).count i =
      (voices.map (fun v => voiceContrib v i k)).sum := by
  have hx := buildInventoryAux_count h k i
  simpa [bucketD] using hx

lemma insertPush_wf {inv : Inv} (hwf : InvWF inv) (k vid : String) :
    InvWF (insertPush inv k vid) := by
  induction inv with
  | nil =>
      intro p hp
      simp only [insertPush, List.mem_singleton] at hp
      subst hp
      simp
  | cons q rest ih =>
      obtain ⟨k₀, b⟩ := q
      intro p hp
      rw [insertPush] at hp
      by_cases hk : k₀ = k
      · rw [if_pos hk] at hp
        rcases List.mem_cons.mp hp with rfl | hmem
        · simp
        · exact hwf _ (List.mem_cons_of_mem _ hmem)
      · rw [if_neg hk] at hp
        rcases List.mem_cons.mp hp with rfl | hmem
        · exact hwf _ (List.mem_cons_self _ _)
        · exact ih (fun q hq => hwf q (List.mem_cons_of_mem _ hq)) _ hmem

lemma pushCodes_wf {vid : Option String} {codes : List String}
    {inv inv' : Inv} (hwf : InvWF inv)
    (h : pushCodes inv vid codes = some inv') : InvWF inv' := by
  induction codes generalizing inv with
  | nil =>
      simp only [pushCodes, Option.some.injEq] at h
      subst h
      exact hwf
  | cons c rest ih =>
      rw [pushCodes] at h
      cases hg : generic_language_from_code c with
      | none => rw [hg] at h; cases h
      | some gl =>
          rw [hg] at h
          dsimp only at h
          cases vid with
          | none => exact ih hwf h
          | some j => exact ih (insertPush_wf hwf gl j) h

lemma procVoice_wf {inv inv' : Inv} {v : Voice} (hwf : InvWF inv)
    (h : procVoice inv v = some inv') : InvWF inv' := by
  unfold procVoice at h
  by_cases hs : hasStandard v
  · rw [if_pos hs] at h
    cases hm : v.languageCode with
    | none => rw [hm] at h; cases h
    | some m =>
        rw [hm] at h
        exact pushCodes_wf hwf h
  · rw [if_neg hs] at h
    cases h
    exact hwf

lemma buildInventoryAux_wf {voices : List Voice} {inv inv' : Inv}
    (hwf : InvWF inv) (h : buildInventoryAux inv voices = some inv') :
    InvWF inv' := by
  induction voices generalizing inv with
  | nil =>
      simp only [buildInventoryAux, Option.some.injEq] at h
      subst h
      exact hwf
  | cons v rest ih =>
      rw [buildInventoryAux] at h
      cases hp : procVoice inv v with
      | none => rw [hp] at h; cases h
      | some inv2 =>
          rw [hp] at h
          exact ih (procVoice_wf hwf hp) h

lemma buildInventory_wf {voices : List Voice} {inv : Inv}
    (h : buildInventory voices = some inv) : InvWF inv :=
  buildInventoryAux_wf (fun p hp => absurd hp (List.not_mem_nil p)) h

lemma chooseR_isSome {α : Type} {l : List α} (h : l ≠ []) (r : Nat) :
    (chooseR r l).isSome := by
  unfold chooseR
  have hlen : 0 < l.length := List.length_pos.mpr h
  have hlt : r % l.length < l.length := Nat.mod_lt _ hlen
  simp [List.get?_eq_getElem?, hlt]



lemma string_ne_of_head {s t : String} (h : s.data.head? ≠ t.data.head?) :
    s ≠ t :=
  fun he => h (congrArg (fun u => u.data.head?) he)

lemma langMsg_ne_lengthMsg (lang : String) :
    ("Language " ++ lang ++ " is unsupported") ≠ lengthErrMsg := by
  apply string_ne_of_head
  have h1 : ("Language " : String).data = 'L' :: ("anguage " : String).data :=
    rfl
  rw [String.data_append, String.data_append, h1, List.cons_append,
    List.cons_append, List.head?_cons]
  intro hc
  have : ('L' : Char) = 'I' := by
    have h2 : lengthErrMsg.data.head? = some 'I' := rfl
    rw [h2] at hc
    exact Option.some.inj hc
  exact absurd this (by decide)

lemma noSpeakersMsg_ne_lengthMsg (lang : String) :
    ("No speakers available for language " ++ lang) ≠ lengthErrMsg := by
  apply string_ne_of_head
  have h1 : ("No speakers available for language " : String).data =
      'N' :: ("o speakers available for language " : String).data := rfl
  rw [String.data_append, h1, List.cons_append, List.head?_cons]
  intro hc
  have : ('N' : Char) = 'I' := by
    have h2 : lengthErrMsg.data.head? = some 'I' := rfl
    rw [h2] at hc
    exact Option.some.inj hc
  exact absurd this (by decide)



lemma langMsg_head (lang : String) :
    ("Language " ++ lang ++ " is unsupported").data.head? = some 'L' := by
  have h1 : ("Language " : String).data = 'L' :: ("anguage " : String).data :=
    rfl
  rw [String.data_append, String.data_append, h1, List.cons_append,
    List.cons_append, List.head?_cons]

lemma noSpeakersMsg_head (lang : String) :
    ("No speakers available for language " ++ lang).data.head? = some 'N' := by
  have h1 : ("No speakers available for language " : String).data =
      'N' :: ("o speakers available for language " : String).data := rfl
  rw [String.data_append, h1, List.cons_append, List.head?_cons]

lemma noSpeakersMsg_ne_noAvail (lang : String) :
    ("No speakers available for language " ++ lang) ≠
      "No available speakers" := by
  intro he
  have hl := congrArg (fun u => u.data.length) he
  simp only [String.data_append, List.length_append] at hl
  have h1 : ("No speakers available for language " : String).data.length =
      35 := rfl
  have h2 : ("No available speakers" : String).data.length = 21 := rfl
  rw [h1, h2] at hl
  omega

/-- C1 (amended): the length check of the `speak` handler measures UTF-8
bytes, not characters.  For every payload whose `ipa` has byte length
outside [1, 50] the handler fails with the InvalidInput message stating
the bound (so the external synthesis call is never submitted), and for
every payload whose byte length is within [1, 50] the length check
passes: the length message is never the outcome. -/
theorem claim_C1 (speakers : Inv) (r : Nat) (data : RequestData) :
    ((rustLen data.ipa < MIN_IPA_LENGTH ∨
        MAX_IPA_LENGTH < rustLen data.ipa) →
      speak speakers r data = some (.badRequest lengthErrMsg)) ∧
    ((MIN_IPA_LENGTH ≤ rustLen data.ipa ∧
        rustLen data.ipa ≤ MAX_IPA_LENGTH) →
      speak speakers r data ≠ some (.badRequest lengthErrMsg)) := by
  constructor
  · intro h
    simp only [speak]
    rw [if_pos h]
  · rintro ⟨h1, h2⟩
    have hcond : ¬ (rustLen data.ipa < MIN_IPA_LENGTH ∨
        MAX_IPA_LENGTH < rustLen data.ipa) := by
      push_neg
      exact ⟨h1, h2⟩
    intro hc
    simp only [speak] at hc
    rw [if_neg hcond] at hc
    cases hl : List.lookup data.language LANGUAGE_TO_CODE with
    | none =>
        rw [hl] at hc
        dsimp only at hc
        injection Option.some.inj hc with hmsg
        exact string_ne_of_head (by rw [langMsg_head]; decide) hmsg
    | some code =>
        rw [hl] at hc
        dsimp only at hc
        cases hg : generic_language_from_code code with
        | none => rw [hg] at hc; cases hc
        | some gl =>
            rw [hg] at hc
            dsimp only at hc
            cases hb : List.lookup gl speakers with
            | none =>
                rw [hb] at hc
                dsimp only at hc
                injection Option.some.inj hc with hmsg
                exact string_ne_of_head
                  (by rw [noSpeakersMsg_head]; decide) hmsg
            | some bucket =>
                rw [hb] at hc
                dsimp only at hc
                cases hcc : chooseR r bucket with
                | none =>
                    rw [hcc] at hc
                    dsimp only at hc
                    injection Option.some.inj hc with hmsg
                    exact absurd hmsg (by decide)
                | some sp =>
                    rw [hcc] at hc
                    dsimp only at hc
                    exact SpeakOutcome.noConfusion (Option.some.inj hc)

/-- C1 counterexample: an `ipa` of 26 characters, each of them the
two-byte character æ, is within the claimed [1, 50] character bound,
the language is supported and a speaker is available, yet the handler
rejects the request with the length message, because the source checks
`data.ipa.len()`, which counts 52 bytes. -/
theorem claim_C1_counterexample :
    ("ææææææææææææææææææææææææææ" : String).length = 26 ∧
    speak [("en", ["Joanna"])] 0
        ⟨"ææææææææææææææææææææææææææ", "English"⟩ =
      some (.badRequest lengthErrMsg) :=
  ⟨by decide, by decide⟩

/-- Witness for C1 at concrete inputs. -/
theorem claim_C1_witness :
    speak [] 0 ⟨"", "English"⟩ = some (.badRequest lengthErrMsg) ∧
    speak [] 0 ⟨"a", "English"⟩ ≠ some (.badRequest lengthErrMsg) :=
  ⟨(claim_C1 [] 0 ⟨"", "English"⟩).1 (Or.inl (by decide)),
   (claim_C1 [] 0 ⟨"a", "English"⟩).2 (by decide)⟩



/-- C3: for every language name without an entry in the curated table,
the `speak` handler fails with InvalidInput naming the rejected
language, and never submits a synthesis request; and this check runs
only after the IPA length check has passed — when the length is also
out of bounds, the outcome is the length message instead. -/
theorem claim_C3 (speakers : Inv) (r : Nat) (data : RequestData)
    (hl : List.lookup data.language LANGUAGE_TO_CODE = none) :
    ((MIN_IPA_LENGTH ≤ rustLen data.ipa ∧
        rustLen data.ipa ≤ MAX_IPA_LENGTH) →
      speak speakers r data =
        some (.badRequest
          ("Language " ++ data.language ++ " is unsupported"))) ∧
    ((rustLen data.ipa < MIN_IPA_LENGTH ∨
        MAX_IPA_LENGTH < rustLen data.ipa) →
      speak speakers r data = some (.badRequest lengthErrMsg)) := by
  constructor
  · rintro ⟨h1, h2⟩
    have hcond : ¬ (rustLen data.ipa < MIN_IPA_LENGTH ∨
        MAX_IPA_LENGTH < rustLen data.ipa) := by
      push_neg
      exact ⟨h1, h2⟩
    simp only [speak]
    rw [if_neg hcond, hl]
  · intro h
    simp only [speak]
    rw [if_pos h]

/-- Witness for C3 at concrete inputs. -/
theorem claim_C3_witness :
    speak [] 0 ⟨"kæt", "Klingon"⟩ =
      some (.badRequest ("Language " ++ "Klingon" ++ " is unsupported")) ∧
    speak [] 0 ⟨"", "Klingon"⟩ = some (.badRequest lengthErrMsg) :=
  ⟨(claim_C3 [] 0 ⟨"kæt", "Klingon"⟩ (by decide)).1 (by decide),
   (claim_C3 [] 0 ⟨"", "Klingon"⟩ (by decide)).2 (Or.inl (by decide))⟩

/-- C5: every synthesis submission of a request that passed validation
is the phoneme tag with the raw IPA text substituted unescaped, typed
as SSML, with the compressed streaming-friendly OggVorbis output
format, addressed to the speaker id drawn from the bucket of the
resolved generic language key. -/
theorem claim_C5 {speakers : Inv} {r : Nat} {data : RequestData}
    {req : SynthRequest}
    (h : speak speakers r data = some (.synthesize req)) :
    req.outputFormat = .oggVorbis ∧ req.textType = .ssml ∧
    req.text = phonemeSsml data.ipa ∧
    (∃ code generic bucket,
      List.lookup data.language LANGUAGE_TO_CODE = some code ∧
      generic_language_from_code code = some generic ∧
      List.lookup generic speakers = some bucket ∧
      chooseR r bucket = some req.voiceId) := by
  simp only [speak] at h
  by_cases hlen : (rustLen data.ipa < MIN_IPA_LENGTH ∨
      MAX_IPA_LENGTH < rustLen data.ipa)
  · rw [if_pos hlen] at h
    exact SpeakOutcome.noConfusion (Option.some.inj h)
  · rw [if_neg hlen] at h
    cases hl : List.lookup data.language LANGUAGE_TO_CODE with
    | none =>
        rw [hl] at h
        dsimp only at h
        exact SpeakOutcome.noConfusion (Option.some.inj h)
    | some code =>
        rw [hl] at h
        dsimp only at h
        cases hg : generic_language_from_code code with
        | none => rw [hg] at h; cases h
        | some gl =>
            rw [hg] at h
            dsimp only at h
            cases hb : List.lookup gl speakers with
            | none =>
                rw [hb] at h
                dsimp only at h
                exact SpeakOutcome.noConfusion (Option.some.inj h)
            | some bucket =>
                rw [hb] at h
                dsimp only at h
                cases hcc : chooseR r bucket with
                | none =>
                    rw [hcc] at h
                    dsimp only at h
                    exact SpeakOutcome.noConfusion (Option.some.inj h)
                | some sp =>
                    rw [hcc] at h
                    dsimp only at h
                    injection Option.some.inj h with h2
                    subst h2
                    exact ⟨rfl, rfl, rfl, code, gl, bucket, rfl, hg, hb, hcc⟩

/-- Witness for C5 at concrete inputs. -/
theorem claim_C5_witness :
    (⟨.oggVorbis, phonemeSsml "kæt", .ssml, "Joanna"⟩ :
        SynthRequest).outputFormat = .oggVorbis ∧
    (⟨.oggVorbis, phonemeSsml "kæt", .ssml, "Joanna"⟩ :
        SynthRequest).textType = .ssml ∧
    (⟨.oggVorbis, phonemeSsml "kæt", .ssml, "Joanna"⟩ :
        SynthRequest).text = phonemeSsml "kæt" ∧
    (∃ code generic bucket,
      List.lookup "English" LANGUAGE_TO_CODE = some code ∧
      generic_language_from_code code = some generic ∧
      List.lookup generic [("en", ["Joanna"])] = some bucket ∧
      chooseR 0 bucket =
        some (⟨.oggVorbis, phonemeSsml "kæt", .ssml, "Joanna"⟩ :
          SynthRequest).voiceId) :=
  @claim_C5 [("en", ["Joanna"])] 0 ⟨"kæt", "English"⟩
    ⟨.oggVorbis, phonemeSsml "kæt", .ssml, "Joanna"⟩ (by decide)

/-- C10: every bucket of a successfully built inventory is non-empty (a
key is inserted only when an id is pushed), so the secondary
empty-bucket branch of the handler — the No available speakers error
from random selection — is unreachable for inventories built at
startup. -/
theorem claim_C10 {voices : List Voice} {inv : Inv}
    (h : buildInventory voices = some inv) :
    (∀ p ∈ inv, p.2 ≠ ([] : List String)) ∧
    ∀ (r : Nat) (data : RequestData),
      speak inv r data ≠ some (.badRequest "No available speakers") := by
  have hwf : InvWF inv := buildInventory_wf h
  refine ⟨hwf, ?_⟩
  intro r data hc
  simp only [speak] at hc
  by_cases hlen : (rustLen data.ipa < MIN_IPA_LENGTH ∨
      MAX_IPA_LENGTH < rustLen data.ipa)
  · rw [if_pos hlen] at hc
    injection Option.some.inj hc with hmsg
    exact absurd hmsg (by decide)
  · rw [if_neg hlen] at hc
    cases hl : List.lookup data.language LANGUAGE_TO_CODE with
    | none =>
        rw [hl] at hc
        dsimp only at hc
        injection Option.some.inj hc with hmsg
        exact string_ne_of_head (by rw [langMsg_head]; decide) hmsg
    | some code =>
        rw [hl] at hc
        dsimp only at hc
        cases hg : generic_language_from_code code with
        | none => rw [hg] at hc; cases hc
        | some gl =>
            rw [hg] at hc
            dsimp only at hc
            cases hb : List.lookup gl inv with
            | none =>
                rw [hb] at hc
                dsimp only at hc
                injection Option.some.inj hc with hmsg
                exact noSpeakersMsg_ne_noAvail data.language hmsg
            | some bucket =>
                rw [hb] at hc
                dsimp only at hc
                have hne : bucket ≠ ([] : List String) :=
                  hwf (gl, bucket) (lookup_mem hb)
                have hsome := chooseR_isSome hne r
                cases hcc : chooseR r bucket with
                | none => rw [hcc] at hsome; cases hsome
                | some sp =>
                    rw [hcc] at hc
                    dsimp only at hc
                    exact SpeakOutcome.noConfusion (Option.some.inj hc)

/-- Witness for C10 at concrete inputs. -/
theorem claim_C10_witness :
    (["Hans"] : List String) ≠ ([] : List String) ∧
    speak [("de", ["Hans"])] 5 ⟨"kæt", "English"⟩ ≠
      some (.badRequest "No available speakers") :=
  ⟨(@claim_C10 [⟨some [Engine.standard], some "de-DE", [], some "Hans"⟩]
      [("de", ["Hans"])] (by decide)).1 ("de", ["Hans"]) (by decide),
   (@claim_C10 [⟨some [Engine.standard], some "de-DE", [], some "Hans"⟩]
      [("de", ["Hans"])] (by decide)).2 5 ⟨"kæt", "English"⟩⟩



/-- C2 counterexample: a Standard voice registered under the codes
en-US and en-GB — two codes reducing to the same generic key en —
appears twice in the en bucket of the built inventory, not exactly
once per distinct generic key as claimed. -/
theorem claim_C2_counterexample :
    buildInventory
        [⟨some [Engine.standard], some "en-US", ["en-GB"], some "Amy"⟩] =
      some [("en", ["Amy", "Amy"])] ∧
    ¬ (bucketD [("en", ["Amy", "Amy"])] "en").count "Amy" = 1 :=
  ⟨by decide, by decide⟩

/-- C2 (amended): a voice registered under multiple language codes
appears in each bucket once per registered code that reduces to the
key of that bucket, with no deduplication: the number of occurrences
of a speaker id in a bucket equals the sum over the catalog voices of
their per-code contributions, so two codes reducing to the same
generic key yield two entries. -/
theorem claim_C2 {voices : List Voice} {inv : Inv}
    (h : buildInventory voices = some inv) (i k : String) :
    (bucketD inv k).count i =
      (voices.map (fun v => voiceContrib v i k)).sum :=
  buildInventory_count h k i

/-- Witness for C2 at concrete inputs. -/
theorem claim_C2_witness :
    (bucketD [("en", ["Amy", "Amy"])] "en").count "Amy" =
      (([⟨some [Engine.standard], some "en-US", ["en-GB"], some "Amy"⟩] :
          List Voice).map (fun v => voiceContrib v "Amy" "en")).sum :=
  @claim_C2 [⟨some [Engine.standard], some "en-US", ["en-GB"], some "Amy"⟩]
    [("en", ["Amy", "Amy"])] (by decide) "Amy" "en"

/-- C4: a catalog voice that does not list the Standard engine among
its supported engines (including when the engine list is absent) is
skipped entirely: an id carried only by non-Standard voices appears in
no bucket of the built inventory. -/
theorem claim_C4 {voices : List Voice} {inv : Inv} {i : String}
    (h : buildInventory voices = some inv)
    (hns : ∀ v ∈ voices, v.id = some i → ¬ hasStandard v = true) :
    ∀ k b, List.lookup k inv = some b → ¬ i ∈ b := by
  intro k b hb hmem
  have hcount : (bucketD inv k).count i = 0 := by
    rw [buildInventory_count h]
    apply List.sum_eq_zero
    intro x hx
    rcases List.mem_map.mp hx with ⟨v, hv, rfl⟩
    unfold voiceContrib
    by_cases hid : v.id = some i
    · simp [hid, hns v hv hid]
    · simp [hid]
  have hmem2 : i ∈ bucketD inv k := by
    unfold bucketD
    rw [hb]
    exact hmem
  exact absurd hmem2 (List.count_eq_zero.mp hcount)

/-- Witness for C4 at concrete inputs (the first voice has no engine
list and id X; the built inventory has the single bucket of the second
voice, and X is not in it). -/
theorem claim_C4_witness :
    ¬ ("X" : String) ∈ (["Hans"] : List String) :=
  @claim_C4 [⟨none, some "en-US", [], some "X"⟩,
      ⟨some [Engine.standard], some "de-DE", [], some "Hans"⟩]
    [("de", ["Hans"])] "X" (by decide) (by decide) "de" ["Hans"] (by decide)

/-- C8: every code in the curated language table has a well-formed
two-character prefix, so reducing it to a generic language key never
fails and returns exactly the first two characters of the string form
of the code. -/
theorem claim_C8 {name code : String}
    (h : List.lookup name LANGUAGE_TO_CODE = some code) :
    2 ≤ code.data.length ∧
    generic_language_from_code code =
      some (String.mk (code.data.take 2)) := by
  have hmem : (name, code) ∈ LANGUAGE_TO_CODE := lookup_mem h
  have hlen : 2 ≤ code.data.length := by
    have hall : ∀ p ∈ LANGUAGE_TO_CODE, 2 ≤ (p.2 : String).data.length := by
      decide
    exact hall _ hmem
  refine ⟨hlen, ?_⟩
  unfold generic_language_from_code
  rw [if_pos hlen]

/-- Witness for C8 at a concrete table entry. -/
theorem claim_C8_witness :
    2 ≤ ("en-US" : String).data.length ∧
    generic_language_from_code "en-US" =
      some (String.mk (("en-US" : String).data.take 2)) :=
  @claim_C8 "English" "en-US" (by decide)



/-- C6: a response to a request whose Origin header starts with the
trusted chrome-extension:// prefix carries exactly that origin in
Access-Control-Allow-Origin; with no Origin header, or an Origin not
starting with that prefix, the header is the wildcard. -/
theorem claim_C6 (o : String) (response : Headers) :
    getHeader (on_response (some o) response)
        "Access-Control-Allow-Origin" =
      some (if o.startsWith "chrome-extension://" then o else "*") ∧
    getHeader (on_response none response) "Access-Control-Allow-Origin" =
      some "*" := by
  constructor
  · by_cases h : o.startsWith "chrome-extension://" <;>
      simp [on_response, setHeader, getHeader, h]
  · simp [on_response, setHeader, getHeader]

/-- C7: every outbound response, whatever its prior headers and
whatever the request Origin, carries all three CORS headers, with the
advertised methods GET, POST, OPTIONS and the advertised headers
Content-Type, Charset, Accept. -/
theorem claim_C7 (origin : Option String) (response : Headers) :
    getHeader (on_response origin response)
        "Access-Control-Allow-Methods" = some "GET, POST, OPTIONS" ∧
    getHeader (on_response origin response)
        "Access-Control-Allow-Headers" =
      some "Content-Type, Charset, Accept" ∧
    (getHeader (on_response origin response)
        "Access-Control-Allow-Origin").isSome = true := by
  cases origin with
  | none => exact ⟨by simp [on_response, setHeader, getHeader],
      by simp [on_response, setHeader, getHeader],
      by simp [on_response, setHeader, getHeader]⟩
  | some o =>
      by_cases h : o.startsWith "chrome-extension://" <;>
        exact ⟨by simp [on_response, setHeader, getHeader, h],
          by simp [on_response, setHeader, getHeader, h],
          by simp [on_response, setHeader, getHeader, h]⟩

lemma serveClient_handled (inv : Inv) (reqs : List (RequestData × Nat)) :
    ∀ c : Nat,
      countHandled (serveClient inv c reqs) ≤ RATE_LIMIT_PER_HOUR - c := by
  induction reqs with
  | nil => intro c; simp [serveClient, countHandled]
  | cons req rest ih =>
      intro c
      by_cases hc : c < RATE_LIMIT_PER_HOUR
      · have hr := ih (c + 1)
        unfold countHandled at hr ⊢
        simp [serveClient, serveOne, hc, List.countP_cons]
        omega
      · have hr := ih c
        unfold countHandled at hr ⊢
        simp [serveClient, serveOne, hc, List.countP_cons]
        omega

/-- C9: the configured rate-limit constant is 100 per hour; within one
hourly window at most 100 of a client requests reach the `speak`
handler, and a request rejected by the limiter is answered with a
throttling result immediately, the handler never running for it. -/
theorem claim_C9 :
    RATE_LIMIT_PER_HOUR = 100 ∧
    (∀ (inv : Inv) (reqs : List (RequestData × Nat)),
      countHandled (serveClient inv 0 reqs) ≤ 100) ∧
    (∀ (inv : Inv) (c : Nat) (req : RequestData × Nat),
      RATE_LIMIT_PER_HOUR ≤ c → serveOne inv c req = (c, .rateLimited)) := by
  refine ⟨rfl, ?_, ?_⟩
  · intro inv reqs
    have hr := serveClient_handled inv reqs 0
    simpa using hr
  · intro inv c req hcge
    unfold serveOne
    rw [if_neg (by omega)]

/-- Witness for C9 at concrete inputs. -/
theorem claim_C9_witness :
    serveOne [] 100 (⟨"a", "English"⟩, 0) = (100, .rateLimited) :=
  claim_C9.2.2 [] 100 (⟨"a", "English"⟩, 0) (by decide)

end IpaServer
